import Mathlib

/-
  Shallow embedding of vearutop/statigz (src/server.go) in Lean 4.

  The embedding models the package's data and control flow:
  * bytes are `List Nat`, byte streams are fully materialised lists;
  * the `fs.ReadDirFS` collaborator is a finite tree of named entries, where
    `none` in a file's content models an `Open`/read error and `none` in a
    directory's entries models a `ReadDir` error;
  * `http.Header` is an association list with `Set`/`Get`/`Del`;
  * the error hook `Server.OnError` is fixed to the default installed by
    `FileServer` (`http.Error` with status 500); its invocation is recorded in
    the `hookErr`/`hookHeaders` fields of `Response` so that theorems can speak
    about the headers at the moment the hook was called;
  * `compress/gzip` is an external collaborator: codec transforms are function
    parameters; `gunzipModel` below models only the header validation of
    `gzip.NewReader` (failure mode `gzip: invalid header`);
  * `http.ServeContent` is modelled for the requests representable here
    (no `Range`, no `If-Modified-Since`/`If-Range`; `If-None-Match` is a single
    exact value, so the only ServeContent precondition that can fire is the
    `*` form); decoded streams are forward-only (neither `gzip` nor `brotli`
    readers seek), so only verbatim file reads can take the ServeContent path,
    and whether an opened file seeks is part of the file-system model.
-/

namespace Statigz

abbrev Bytes := List Nat

def strBytes (s : String) : Bytes := s.data.map Char.toNat

/-- strings.TrimPrefix(p, "/"): drop one leading slash if present. -/
def trimPrefixSlash (p : String) : String :=
  match p.data with
  | '/' :: rest => ⟨rest⟩
  | _ => p

/-- Is `pre` a prefix of `l` (char lists)? Helper for substring search. -/
def prefixOfL : List Char → List Char → Bool
  | [], _ => true
  | _ :: _, [] => false
  | a :: as, b :: bs => a == b && prefixOfL as bs

/-- Does `nd` occur inside `hay`? Helper for substring search. -/
def containsL : List Char → List Char → Bool
  | _, [] => true
  | [], _ :: _ => false
  | h :: t, n :: ns => prefixOfL (n :: ns) (h :: t) || containsL t (n :: ns)

/-- strings.Contains. -/
def containsSub (hay needle : String) : Bool := containsL hay.data needle.data

/-- hash/fnv: 64-bit FNV-1 offset basis. -/
def fnvOffset64 : Nat := 14695981039346656037

/-- hash/fnv: 64-bit FNV-1 prime. -/
def fnvPrime64 : Nat := 1099511628211

/-- One byte of 64-bit FNV-1: multiply (mod 2^64), then xor the byte. -/
def fnv1Step (h b : Nat) : Nat := ((h * fnvPrime64) % (2 ^ 64)) ^^^ b

/-- hash/fnv New64 over a full byte stream (io.Copy into the hash). -/
def fnv64 (bs : Bytes) : Nat := bs.foldl fnv1Step fnvOffset64

/-- Digit characters used by strconv.FormatUint: 0-9 then a-z. -/
def digit36 (d : Nat) : Char := if d < 10 then Char.ofNat (48 + d) else Char.ofNat (87 + d)

/-- Accumulate base-36 digits of `n` (most significant first). -/
def formatUint36Aux (n : Nat) (acc : List Char) : List Char :=
  if n = 0 then acc else formatUint36Aux (n / 36) (digit36 (n % 36) :: acc)
  decreasing_by exact Nat.div_lt_self (Nat.pos_of_ne_zero (by assumption)) (by decide)

/-- strconv.FormatUint(n, 36). -/
def formatUint36 (n : Nat) : String := if n = 0 then "0" else ⟨formatUint36Aux n []⟩

abbrev Headers := List (String × String)

/-- http.Header Del (canonical keys assumed throughout). -/
def hDel : Headers → String → Headers
  | [], _ => []
  | (k', v) :: t, k => if k' = k then hDel t k else (k', v) :: hDel t k

/-- http.Header Set: replace any previous value for the key. -/
def hSet (h : Headers) (k v : String) : Headers := (k, v) :: hDel h k

/-- http.Header Get: first (only) value for the key, "" if unset. -/
def hGet : Headers → String → String
  | [], _ => ""
  | (k', v) :: t, k => if k' = k then v else hGet t k

/-- ASCII lower-casing of a string (strings.ToLower; header tokens are ASCII). -/
def toLowerStr (s : String) : String := ⟨s.data.map Char.toLower⟩

/-- Scan a reversed character list for the extension: collect characters until
the final dot (inclusive), giving up at a path separator or the start. -/
def extOfAux : List Char → List Char → Option (List Char)
  | [], _ => none
  | '/' :: _, _ => none
  | '.' :: _, acc => some ('.' :: acc)
  | c :: rest, acc => extOfAux rest (c :: acc)

/-- filepath.Ext: suffix beginning at the final dot of the last path element. -/
def extOf (p : String) : String :=
  match extOfAux p.data.reverse [] with
  | some cs => ⟨cs⟩
  | none => ""

/-- mime.TypeByExtension restricted to the Go mime package's builtin table
(platform-specific additions are outside the model); the builtin keys are
lower-case and the lookup lower-cases the extension on a miss, which for this
table amounts to looking up the lower-cased extension. -/
def mimeByExt (ext : String) : String :=
  let e := toLowerStr ext
  if e = ".css" then "text/css; charset=utf-8"
  else if e = ".gif" then "image/gif"
  else if e = ".htm" then "text/html; charset=utf-8"
  else if e = ".html" then "text/html; charset=utf-8"
  else if e = ".jpeg" then "image/jpeg"
  else if e = ".jpg" then "image/jpeg"
  else if e = ".js" then "text/javascript; charset=utf-8"
  else if e = ".json" then "application/json"
  else if e = ".mjs" then "text/javascript; charset=utf-8"
  else if e = ".pdf" then "application/pdf"
  else if e = ".png" then "image/png"
  else if e = ".svg" then "image/svg+xml"
  else if e = ".wasm" then "application/wasm"
  else if e = ".webp" then "image/webp"
  else if e = ".xml" then "text/xml; charset=utf-8"
  else ""

/-- server.go, Server.serve lines 117-120: content type of the original path,
with a fallback preventing content sniffing on compressed data. -/
def ctypeFor (fn : String) : String :=
  let c := mimeByExt (extOf fn)
  if c = "" then "application/octet-stream" else c

/-- An opened file: its bytes and whether the handle is an io.ReadSeeker. -/
structure FSFile where
  content : Bytes
  seekable : Bool
deriving DecidableEq

/-- A file-tree entry of the fs.ReadDirFS collaborator. `none` content models
a file whose Open/read fails; `none` entries model a directory whose ReadDir
fails. Entry lists are in ReadDir order. -/
inductive FTree where
  | file (name : String) (content : Option Bytes) (seekable : Bool) : FTree
  | dir (name : String) (entries : Option (List FTree)) : FTree

/-- The fs.ReadDirFS collaborator: the tree below "." plus serve-time Open. -/
structure FS where
  rootEntries : Option (List FTree)
  openFile : String → Except String FSFile

/-- server.go type fileInfo. -/
structure FileInfo where
  hash : String
  size : Nat
deriving DecidableEq

/-- server.go type Encoding (the Decoder can be nil). -/
structure Encoding where
  fileExt : String
  contentEncoding : String
  decoder : Option (Bytes → Except String Bytes)

/-- server.go type Server. OnError is fixed to the default hook installed by
FileServer (models the shipped configuration; hook invocation is instrumented
in Response). The info map is a total function to Option. -/
structure Server where
  encodings : List Encoding
  info : String → Option FileInfo
  fs : FS

/-- GzipEncoding of server.go, with the gzip reader itself (an external
collaborator) abstracted as a function parameter. -/
def GzipEncoding (gunzip : Bytes → Except String Bytes) : Encoding :=
  { fileExt := ".gz", contentEncoding := "gzip", decoder := some gunzip }

/-- Model of gzip.NewReader as used by GzipEncoding: validates the two magic
header bytes (0x1f 0x8b) with failure "gzip: invalid header"; the payload
transform after a valid header is abstracted as dropping the header. -/
def gunzipModel : Bytes → Except String Bytes := fun bs =>
  if bs.take 2 = [31, 139] then Except.ok (bs.drop 2) else Except.error "gzip: invalid header"

/-- path.Join(p, name) for a cleaned directory path and entry name: on the
walk's inputs ("." at the root, cleaned paths below) path.Clean is the
identity, so the join is plain concatenation with a slash. -/
def joinPath (p n : String) : String := if p = "." then n else p ++ "/" ++ n

/-- The record stored for a regular file: base-36 FNV-1 hash and byte count. -/
def mkInfo (c : Bytes) : FileInfo := { hash := formatUint36 (fnv64 c), size := c.length }

/-- The empty info map FileServer starts from. -/
def emptyIndex : String → Option FileInfo := fun _ => none

/-- Map update, modelling assignment into the Go map s.info. -/
def indexInsert (k : String) (v : FileInfo) (m : String → Option FileInfo) :
    String → Option FileInfo := fun x => if x = k then some v else m x

/-- server.go, Server.hashDir lines 71-107: walk one directory's entries in
ReadDir order; recurse into subdirectories; hash regular files into the map;
any listing or read error aborts the whole walk. -/
def hashDirList : List FTree → String → (String → Option FileInfo) →
    Except String (String → Option FileInfo)
  | [], _, m => Except.ok m
  | FTree.file n none _ :: _, p, _ => Except.error (joinPath p n)
  | FTree.file n (some c) _ :: rest, p, m =>
      hashDirList rest p (indexInsert (joinPath p n) (mkInfo c) m)
  | FTree.dir n none :: _, p, _ => Except.error (joinPath p n)
  | FTree.dir n (some es) :: rest, p, m =>
      match hashDirList es (joinPath p n) m with
      | Except.error e => Except.error e
      | Except.ok m1 => hashDirList rest p m1

/-- server.go, FileServer lines 49-69: default gzip registry, options applied
before the walk, then hashDir("."); a walk error panics (modelled as error).
Exported options can replace the error hook (fixed to the default here) and
edit the Encodings slice; they cannot reach the unexported info/fs fields, so
an option is modelled as a transformation of the encoding registry. -/
def FileServer (fsv : FS) (opts : List (List Encoding → List Encoding)) :
    Except String Server :=
  let encs := opts.foldl (fun es o => o es) [GzipEncoding gunzipModel]
  match fsv.rootEntries with
  | none => Except.error "."
  | some ts =>
      match hashDirList ts "." emptyIndex with
      | Except.error e => Except.error e
      | Except.ok m => Except.ok { encodings := encs, info := m, fs := fsv }

/-- The observable outcome of handling one request. `hookErr`/`hookHeaders`
record whether OnError was invoked and the response headers at that moment;
`decodeInvoked` records whether a Decoder was applied. -/
structure Response where
  status : Nat
  headers : Headers
  body : Bytes
  hookErr : Option String
  hookHeaders : Option Headers
  decodeInvoked : Bool

/-- The request fields the handler reads. Header values are the canonical
single values returned by Header.Get. -/
structure Request where
  method : String
  urlPath : String
  acceptEncoding : String
  ifNoneMatch : String

/-- The default OnError hook installed by FileServer: http.Error(rw,
"Internal Server Error", 500), which sets Content-Type and
X-Content-Type-Options and writes the message. `h` is the header state at the
moment of invocation; `di` records whether a decode had been attempted. -/
def onErrorDefault (h : Headers) (e : String) (di : Bool) : Response :=
  { status := 500
  , headers := hSet (hSet h "Content-Type" "text/plain; charset=utf-8")
      "X-Content-Type-Options" "nosniff"
  , body := strBytes "Internal Server Error\n"
  , hookErr := some e
  , hookHeaders := some h
  , decodeInvoked := di }

/-- Plain io.Copy of a stream into the response (implicit 200). -/
def copyResp (h : Headers) (content : Bytes) (di : Bool) : Response :=
  { status := 200, headers := h, body := content
  , hookErr := none, hookHeaders := none, decodeInvoked := di }

/-- http.ServeContent for the requests representable in this model (no Range
or date conditionals; If-None-Match is a single exact value, so of
ServeContent's precondition forms only `*` can fire, since the stored
validators are unquoted and never match the quoted-ETag list syntax).
On `*` it answers 304 via writeNotModified (deleting Content-Type and
Content-Length); otherwise it sets Accept-Ranges, sets Content-Length only
when no Content-Encoding is present, and sends the bytes. -/
def serveContentModel (inm : String) (h : Headers) (content : Bytes) : Response :=
  if inm = "*" then
    { status := 304, headers := hDel (hDel h "Content-Type") "Content-Length"
    , body := [], hookErr := none, hookHeaders := none, decodeInvoked := false }
  else
    let h1 := hSet h "Accept-Ranges" "bytes"
    let h2 := if hGet h1 "Content-Encoding" = "" then
        hSet h1 "Content-Length" (toString content.length)
      else h1
    { status := 200, headers := h2, body := content
    , hookErr := none, hookHeaders := none, decodeInvoked := false }

/-- server.go, Server.serve lines 109-168, transliterated: If-None-Match
short-circuit; Content-Type/Etag/Content-Encoding headers; open path+suffix
(error → hook); Content-Length when the stored length is positive; HEAD stops
after headers; optional decompression (error → delete Etag, hook); seekable
streams go through ServeContent, others are copied. -/
def serve (s : Server) (req : Request) (fn suf enc hash : String) (cl : Nat)
    (dec : Option (Bytes → Except String Bytes)) : Response :=
  if req.ifNoneMatch = hash then
    { status := 304, headers := [], body := []
    , hookErr := none, hookHeaders := none, decodeInvoked := false }
  else
    let h1 := hSet (hSet [] "Content-Type" (ctypeFor fn)) "Etag" hash
    let h2 := if enc ≠ "" then hSet h1 "Content-Encoding" enc else h1
    match s.fs.openFile (fn ++ suf) with
    | Except.error e => onErrorDefault h2 e false
    | Except.ok file =>
        let h3 := if 0 < cl then hSet h2 "Content-Length" (toString cl) else h2
        if req.method = "HEAD" then
          { status := 200, headers := h3, body := []
          , hookErr := none, hookHeaders := none, decodeInvoked := false }
        else
          match dec with
          | some d =>
              match d file.content with
              | Except.error e => onErrorDefault (hDel h3 "Etag") e true
              | Except.ok decoded => copyResp h3 decoded true
          | none =>
              if file.seekable then serveContentModel req.ifNoneMatch h3 file.content
              else copyResp h3 file.content false

/-- http.Error(rw, "Method Not Allowed...", 405) after setting Allow. -/
def methodNotAllowedResp : Response :=
  { status := 405
  , headers := hSet (hSet (hSet [] "Allow" "GET, HEAD")
      "Content-Type" "text/plain; charset=utf-8") "X-Content-Type-Options" "nosniff"
  , body := strBytes "Method Not Allowed\n\nmethod should be GET or HEAD\n"
  , hookErr := none, hookHeaders := none, decodeInvoked := false }

/-- http.NotFound. -/
def notFoundResp : Response :=
  { status := 404
  , headers := hSet (hSet [] "Content-Type" "text/plain; charset=utf-8")
      "X-Content-Type-Options" "nosniff"
  , body := strBytes "404 page not found\n"
  , hookErr := none, hookHeaders := none, decodeInvoked := false }

/-- server.go lines 185-199: the Accept-Encoding loop (first codec whose wire
name occurs in the lower-cased header and whose path+suffix is indexed is
served verbatim with its Content-Encoding). -/
def tryCompressed (s : Server) (req : Request) (fn ael : String) :
    List Encoding → Option Response
  | [] => none
  | e :: rest =>
      if containsSub ael e.contentEncoding then
        match s.info (fn ++ e.fileExt) with
        | some i => some (serve s req fn e.fileExt e.contentEncoding i.hash i.size none)
        | none => tryCompressed s req fn ael rest
      else tryCompressed s req fn ael rest

/-- server.go lines 211-220: the decompression loop (first codec whose
path+suffix is indexed and whose Decoder is non-nil serves transparently
decompressed, with validator hash+"U" and unknown length). -/
def tryDecompress (s : Server) (req : Request) (fn : String) :
    List Encoding → Option Response
  | [] => none
  | e :: rest =>
      match s.info (fn ++ e.fileExt), e.decoder with
      | some i, some d => some (serve s req fn e.fileExt "" (i.hash ++ "U") 0 (some d))
      | some _, none => tryDecompress s req fn rest
      | none, _ => tryDecompress s req fn rest

/-- server.go, Server.ServeHTTP lines 171-223, transliterated. -/
def serveHTTP (s : Server) (req : Request) : Response :=
  if req.method ≠ "GET" ∧ req.method ≠ "HEAD" then methodNotAllowedResp
  else
    match (if req.acceptEncoding ≠ "" then
        tryCompressed s req (trimPrefixSlash req.urlPath)
          (toLowerStr req.acceptEncoding) s.encodings
      else none) with
    | some r => r
    | none =>
        match s.info (trimPrefixSlash req.urlPath) with
        | some i => serve s req (trimPrefixSlash req.urlPath) "" "" i.hash i.size none
        | none =>
            match tryDecompress s req (trimPrefixSlash req.urlPath) s.encodings with
            | some r => r
            | none => notFoundResp

/-! Spec-side descriptions of the negotiation, used to state the claims. -/

/-- The argument bundle `ServeHTTP` hands to `serve` for a resolved request:
suffix, wire encoding, validator, known content length, optional decoder. -/
structure Chosen where
  suf : String
  enc : String
  etag : String
  cl : Nat
  dec : Option (Bytes → Except String Bytes)

/-- The three-step resolution exactly as `ServeHTTP` performs it (the codec
match is the code's: the wire name taken verbatim as a substring of the
lower-cased header). -/
def resolveCode (s : Server) (fn ae : String) : Option Chosen :=
  match (if ae ≠ "" then
      s.encodings.find? (fun e =>
        containsSub (toLowerStr ae) e.contentEncoding && (s.info (fn ++ e.fileExt)).isSome)
    else none) with
  | some e => (s.info (fn ++ e.fileExt)).map (fun i =>
      { suf := e.fileExt, enc := e.contentEncoding, etag := i.hash, cl := i.size, dec := none })
  | none =>
      match s.info fn with
      | some i => some { suf := "", enc := "", etag := i.hash, cl := i.size, dec := none }
      | none =>
          match s.encodings.find? (fun e =>
              (s.info (fn ++ e.fileExt)).isSome && e.decoder.isSome) with
          | some e => (s.info (fn ++ e.fileExt)).bind (fun i => e.decoder.map (fun d =>
              { suf := e.fileExt, enc := "", etag := i.hash ++ "U", cl := 0, dec := some d }))
          | none => none

/-- The three-step resolution in the claim's wording: step 1 selects the first
codec, in registration order, whose wire name appears case-insensitively as a
substring of the Accept-Encoding header (both sides lower-cased) and whose
path+suffix key is indexed. -/
def resolveSpec (s : Server) (fn ae : String) : Option Chosen :=
  match (if ae ≠ "" then
      s.encodings.find? (fun e =>
        containsSub (toLowerStr ae) (toLowerStr e.contentEncoding) &&
          (s.info (fn ++ e.fileExt)).isSome)
    else none) with
  | some e => (s.info (fn ++ e.fileExt)).map (fun i =>
      { suf := e.fileExt, enc := e.contentEncoding, etag := i.hash, cl := i.size, dec := none })
  | none =>
      match s.info fn with
      | some i => some { suf := "", enc := "", etag := i.hash, cl := i.size, dec := none }
      | none =>
          match s.encodings.find? (fun e =>
              (s.info (fn ++ e.fileExt)).isSome && e.decoder.isSome) with
          | some e => (s.info (fn ++ e.fileExt)).bind (fun i => e.decoder.map (fun d =>
              { suf := e.fileExt, enc := "", etag := i.hash ++ "U", cl := 0, dec := some d }))
          | none => none

/-- Modelled from the spec: the pure existence predicate of §4.4 ("does this
request path resolve to a stored asset", re-running only the existence check,
with no I/O and no header mutation). The `Found` method is absent from
src/server.go; only the repository's tests and example invoke it, so it is
reconstructed here from the spec's words: the same three existence checks the
negotiator performs, without serving. -/
def Found (s : Server) (req : Request) : Bool :=
  let fn := trimPrefixSlash req.urlPath
  let ae := req.acceptEncoding
  (if ae ≠ "" then
      s.encodings.any (fun e =>
        containsSub (toLowerStr ae) e.contentEncoding && (s.info (fn ++ e.fileExt)).isSome)
    else false)
  || (s.info fn).isSome
  || s.encodings.any (fun e => (s.info (fn ++ e.fileExt)).isSome && e.decoder.isSome)

/-- Is an Except a success? -/
def isOkE : Except String α → Bool
  | Except.ok _ => true
  | Except.error _ => false

/-- No listing or read error anywhere in a list of entries. -/
def treeListOk : List FTree → Bool
  | [] => true
  | FTree.file _ none _ :: _ => false
  | FTree.file _ (some _) _ :: rest => treeListOk rest
  | FTree.dir _ none :: _ => false
  | FTree.dir _ (some es) :: rest => treeListOk es && treeListOk rest

/-- All regular files below a directory, with joined paths, in walk order
(directories contribute no entry of their own). -/
def treeFilesList : List FTree → String → List (String × Bytes)
  | [], _ => []
  | FTree.file _ none _ :: rest, p => treeFilesList rest p
  | FTree.file n (some c) _ :: rest, p => (joinPath p n, c) :: treeFilesList rest p
  | FTree.dir _ none :: rest, p => treeFilesList rest p
  | FTree.dir n (some es) :: rest, p =>
      treeFilesList es (joinPath p n) ++ treeFilesList rest p

/-- Look a key up in an association list, preferring the latest binding
(matching Go map insertion order semantics). -/
def lookupLast : List (String × Bytes) → String → Option Bytes
  | [], _ => none
  | (k, v) :: t, x =>
      match lookupLast t x with
      | some r => some r
      | none => if x = k then some v else none

/-! Concrete fixtures used by the witness and counterexample theorems. -/

/-- A server holding a raw file "a.txt" and its gzip sidecar "a.txt.gz". -/
def fixServer : Server :=
  { encodings := [GzipEncoding gunzipModel]
  , info := fun k =>
      if k = "a.txt.gz" then some { hash := "hz", size := 3 }
      else if k = "a.txt" then some { hash := "ha", size := 3 }
      else none
  , fs :=
    { rootEntries := some []
    , openFile := fun p =>
        if p = "a.txt.gz" then Except.ok { content := [31, 139, 7], seekable := true }
        else if p = "a.txt" then Except.ok { content := [1, 2, 3], seekable := true }
        else Except.error "file does not exist" } }

/-- A server holding only the sidecar "b.bin.gz" (no raw "b.bin"). -/
def sidecarServer : Server :=
  { encodings := [GzipEncoding gunzipModel]
  , info := fun k => if k = "b.bin.gz" then some { hash := "hb", size := 3 } else none
  , fs :=
    { rootEntries := some []
    , openFile := fun p =>
        if p = "b.bin.gz" then Except.ok { content := [31, 139, 9], seekable := false }
        else Except.error "file does not exist" } }

/-- A server whose only record is a sidecar with invalid gzip content, like
testdata/bad.png.gz in the repository's tests. -/
def badServer : Server :=
  { encodings := [GzipEncoding gunzipModel]
  , info := fun k => if k = "bad.png.gz" then some { hash := "h", size := 2 } else none
  , fs :=
    { rootEntries := some []
    , openFile := fun p =>
        if p = "bad.png.gz" then Except.ok { content := [0, 1], seekable := true }
        else Except.error "file does not exist" } }

/-- A server storing an empty file "e" behind a non-seeking handle. -/
def emptyFileServer : Server :=
  { encodings := [GzipEncoding gunzipModel]
  , info := fun k => if k = "e" then some { hash := "he", size := 0 } else none
  , fs :=
    { rootEntries := some []
    , openFile := fun p =>
        if p = "e" then Except.ok { content := [], seekable := false }
        else Except.error "file does not exist" } }

/-- A server every open of which succeeds with valid gzip-model bytes. -/
def okServer : Server :=
  { encodings := [GzipEncoding gunzipModel]
  , info := fun k =>
      if k = "a.txt.gz" then some { hash := "hz", size := 3 }
      else if k = "a.txt" then some { hash := "ha", size := 3 }
      else none
  , fs :=
    { rootEntries := some []
    , openFile := fun _ => Except.ok { content := [31, 139, 7], seekable := false } } }

/-- A server every open of which fails. -/
def openErrServer : Server :=
  { encodings := [GzipEncoding gunzipModel]
  , info := fun _ => none
  , fs := { rootEntries := some [], openFile := fun _ => Except.error "open failed" } }

/-- Toy codec encode: prepend a marker byte. -/
def tcEncode (b : Bytes) : Bytes := 17 :: b

/-- Toy codec decode: strip the marker byte, failing without it; a left
inverse of `tcEncode`. -/
def tcDecoder : Bytes → Except String Bytes := fun bs =>
  if bs.head? = some 17 then Except.ok bs.tail else Except.error "bad"

/-- A server holding only "c.bin.tc", the toy-codec sidecar of "c.bin". -/
def tcServer : Server :=
  { encodings := [{ fileExt := ".tc", contentEncoding := "tc", decoder := some tcDecoder }]
  , info := fun k => if k = "c.bin.tc" then some { hash := "hc", size := 4 } else none
  , fs :=
    { rootEntries := some []
    , openFile := fun p =>
        if p = "c.bin.tc" then Except.ok { content := [17, 5, 6, 7], seekable := false }
        else Except.error "file does not exist" } }

/-- A two-level file tree for the index-construction witness. -/
def tree1 : List FTree :=
  [ FTree.file "a.txt" (some [104, 105]) true
  , FTree.dir "sub" (some [FTree.file "b" (some []) false]) ]

/-- File system rooted at `tree1`. -/
def fsTreeW : FS := { rootEntries := some tree1, openFile := fun _ => Except.error "x" }

/-- File system whose root listing fails. -/
def fsNoneW : FS := { rootEntries := none, openFile := fun _ => Except.error "x" }

/-- GET /a.txt accepting gzip. -/
def reqGzA : Request :=
  { method := "GET", urlPath := "/a.txt", acceptEncoding := "gzip", ifNoneMatch := "" }

/-- GET /a.txt with no Accept-Encoding. -/
def reqPlainA : Request :=
  { method := "GET", urlPath := "/a.txt", acceptEncoding := "", ifNoneMatch := "" }

/-- GET /a.txt accepting gzip, with If-None-Match equal to the sidecar hash. -/
def reqInmA : Request :=
  { method := "GET", urlPath := "/a.txt", acceptEncoding := "gzip", ifNoneMatch := "hz" }

/-- GET /bad.png (only a broken sidecar is stored). -/
def reqBadGet : Request :=
  { method := "GET", urlPath := "/bad.png", acceptEncoding := "", ifNoneMatch := "" }

/-- HEAD /bad.png. -/
def reqBadHead : Request :=
  { method := "HEAD", urlPath := "/bad.png", acceptEncoding := "", ifNoneMatch := "" }

/-- GET /e, the empty stored file. -/
def reqEmptyGet : Request :=
  { method := "GET", urlPath := "/e", acceptEncoding := "", ifNoneMatch := "" }

/-- GET /c.bin, stored only as the toy-codec sidecar. -/
def reqTc : Request :=
  { method := "GET", urlPath := "/c.bin", acceptEncoding := "", ifNoneMatch := "" }

/-- GET /x against a server whose opens fail. -/
def reqOpenErr : Request :=
  { method := "GET", urlPath := "/x", acceptEncoding := "", ifNoneMatch := "" }

/-- The resolution ServeHTTP computes for reqTc against tcServer. -/
def chosenTc : Chosen :=
  { suf := ".tc", enc := "", etag := "hc" ++ "U", cl := 0, dec := some tcDecoder }

/-- The resolution ServeHTTP computes for /b.bin against sidecarServer. -/
def chosenB : Chosen :=
  { suf := ".gz", enc := "", etag := "hb" ++ "U", cl := 0, dec := some gunzipModel }

/-- The bare-path resolution for /a.txt with no Accept-Encoding. -/
def chosenA : Chosen := { suf := "", enc := "", etag := "ha", cl := 3, dec := none }

/-- GET /b.bin with no Accept-Encoding. -/
def reqSidecarGet : Request :=
  { method := "GET", urlPath := "/b.bin", acceptEncoding := "", ifNoneMatch := "" }

/-! Claim statements (the conclusions of the claim theorems, as definitions so
the witnesses can restate them verbatim). -/

/-- Conclusion of C1: the handler's behaviour equals the three-step resolution
described by the spec, and a step-1 resolution that is not short-circuited by
If-None-Match carries the codec's wire name as Content-Encoding. -/
def C1Prop (s : Server) (req : Request) : Prop :=
  (serveHTTP s req =
    match resolveSpec s (trimPrefixSlash req.urlPath) req.acceptEncoding with
    | some c => serve s req (trimPrefixSlash req.urlPath) c.suf c.enc c.etag c.cl c.dec
    | none => notFoundResp)
  ∧ (∀ c, resolveSpec s (trimPrefixSlash req.urlPath) req.acceptEncoding = some c →
      req.ifNoneMatch ≠ c.etag → c.enc ≠ "" →
      hGet (serveHTTP s req).headers "Content-Encoding" = c.enc)

/-- Conclusion of C3: the predicate coincides with resolution existence, reads
nothing from the file system, and (for GET/HEAD) is true exactly when the
handler would not answer 404. -/
def C3Prop (s : Server) (req : Request) : Prop :=
  (Found s req = true ↔
    (resolveCode s (trimPrefixSlash req.urlPath) req.acceptEncoding).isSome = true)
  ∧ (∀ g, Found { s with fs := g } req = Found s req)
  ∧ ((req.method = "GET" ∨ req.method = "HEAD") →
      (Found s req = true ↔ (serveHTTP s req).status ≠ 404))

/-- Conclusion of C4: a decompress-fallback resolution uses the sidecar's
index hash with the "U" marker appended, and that validator differs from the
bare hash used when the same sidecar's bytes are served verbatim. -/
def C4Prop (s : Server) (fn : String) (c : Chosen) : Prop :=
  ∃ e, e ∈ s.encodings ∧ ∃ i, s.info (fn ++ e.fileExt) = some i ∧
    c.suf = e.fileExt ∧ c.etag = i.hash ++ "U" ∧ c.etag ≠ i.hash

/-- Conclusion of C5: the fallback response body is the raw bytes, re-encoding
it reproduces the stored artifact, and no Content-Encoding header is present. -/
def C5Prop (s : Server) (req : Request) (encode : Bytes → Bytes)
    (raw stored : Bytes) : Prop :=
  (serveHTTP s req).body = raw ∧ encode (serveHTTP s req).body = stored ∧
    ∀ v, ("Content-Encoding", v) ∉ (serveHTTP s req).headers

/-- Conclusion of C6: an exact If-None-Match hit yields a bare 304 — no
headers, no body, no hook — independently of the file system. -/
def C6Prop (s : Server) (req : Request) (fn suf enc hash : String) (cl : Nat)
    (dec : Option (Bytes → Except String Bytes)) : Prop :=
  serve s req fn suf enc hash cl dec =
    { status := 304, headers := [], body := []
    , hookErr := none, hookHeaders := none, decodeInvoked := false }
  ∧ ∀ g, serve { s with fs := g } req fn suf enc hash cl dec =
      serve s req fn suf enc hash cl dec

/-- Conclusion of C8 (amended): HEAD sends no body, invokes no decoder, and
matches the equivalent GET's status, Content-Encoding, ETag and Content-Type. -/
def C8Prop (s : Server) (req : Request) : Prop :=
  (serveHTTP s { req with method := "HEAD" }).body = [] ∧
  (serveHTTP s { req with method := "HEAD" }).decodeInvoked = false ∧
  (serveHTTP s { req with method := "HEAD" }).status =
    (serveHTTP s { req with method := "GET" }).status ∧
  hGet (serveHTTP s { req with method := "HEAD" }).headers "Content-Encoding" =
    hGet (serveHTTP s { req with method := "GET" }).headers "Content-Encoding" ∧
  hGet (serveHTTP s { req with method := "HEAD" }).headers "Etag" =
    hGet (serveHTTP s { req with method := "GET" }).headers "Etag" ∧
  hGet (serveHTTP s { req with method := "HEAD" }).headers "Content-Type" =
    hGet (serveHTTP s { req with method := "GET" }).headers "Content-Type"

/-- Conclusion of C10: on an open failure the hook sees (and the response
keeps) ETag, Content-Type and any Content-Encoding; the ETag is missing at the
hook only in the decode-failure case. -/
def C10Prop (s : Server) (req : Request) (fn suf enc hash : String) (cl : Nat)
    (dec : Option (Bytes → Except String Bytes)) : Prop :=
  (∀ e, s.fs.openFile (fn ++ suf) = Except.error e →
    (serve s req fn suf enc hash cl dec).hookErr = some e ∧
    (∃ hh, (serve s req fn suf enc hash cl dec).hookHeaders = some hh ∧
      hGet hh "Etag" = hash ∧ hGet hh "Content-Type" ≠ "" ∧
      (enc ≠ "" → hGet hh "Content-Encoding" = enc)) ∧
    hGet (serve s req fn suf enc hash cl dec).headers "Etag" = hash ∧
    hGet (serve s req fn suf enc hash cl dec).headers "Content-Type" ≠ "" ∧
    (enc ≠ "" → hGet (serve s req fn suf enc hash cl dec).headers "Content-Encoding" = enc))
  ∧ (∀ f d e2, s.fs.openFile (fn ++ suf) = Except.ok f → req.method ≠ "HEAD" →
      dec = some d → d f.content = Except.error e2 →
      (serve s req fn suf enc hash cl dec).hookErr = some e2 ∧
      ∃ hh, (serve s req fn suf enc hash cl dec).hookHeaders = some hh ∧
        hGet hh "Etag" = "")

/-! Header-map lemmas. -/

theorem hGet_hDel_ne (h : Headers) {k k' : String} (hne : k ≠ k') :
    hGet (hDel h k) k' = hGet h k' := by
  induction h with
  | nil => rfl
  | cons a t ih =>
      obtain ⟨ak, av⟩ := a
      by_cases hak : ak = k
      · subst hak
        simp [hDel, hGet, hne, ih]
      · have hkk : ¬(k' = k) := fun hx => hne hx.symm
        by_cases hak' : ak = k'
        · simp [hDel, hGet, hak, hak', hkk]
        · simp [hDel, hGet, hak, hak', ih]

theorem hGet_hDel_self (h : Headers) (k : String) : hGet (hDel h k) k = "" := by
  induction h with
  | nil => rfl
  | cons a t ih =>
      obtain ⟨ak, av⟩ := a
      by_cases hak : ak = k
      · simp only [hDel, if_pos hak, ih]
      · simp only [hDel, if_neg hak, hGet, if_neg hak, ih]

theorem hGet_hSet_self (h : Headers) (k v : String) : hGet (hSet h k v) k = v := by
  simp [hSet, hGet]

theorem hGet_hSet_ne (h : Headers) {k k' : String} (hne : k ≠ k') (v : String) :
    hGet (hSet h k v) k' = hGet h k' := by
  simp only [hSet, hGet, if_neg hne]
  exact hGet_hDel_ne h hne

theorem mem_hDel_iff (h : Headers) (k a b : String) :
    (a, b) ∈ hDel h k ↔ (a, b) ∈ h ∧ a ≠ k := by
  induction h with
  | nil => simp [hDel]
  | cons x t ih =>
      obtain ⟨xk, xv⟩ := x
      by_cases hxk : xk = k
      · subst hxk
        have hstep : hDel ((xk, xv) :: t) xk = hDel t xk := by simp [hDel]
        rw [hstep, ih]
        simp only [List.mem_cons, Prod.mk.injEq]
        constructor
        · rintro ⟨h1, h2⟩; exact ⟨Or.inr h1, h2⟩
        · rintro ⟨h1 | h1, h2⟩
          · exact absurd h1.1 h2
          · exact ⟨h1, h2⟩
      · have hstep : hDel ((xk, xv) :: t) k = (xk, xv) :: hDel t k := by simp [hDel, hxk]
        rw [hstep]
        simp only [List.mem_cons, ih, Prod.mk.injEq]
        constructor
        · rintro (⟨rfl, rfl⟩ | ⟨h1, h2⟩)
          · exact ⟨Or.inl ⟨rfl, rfl⟩, hxk⟩
          · exact ⟨Or.inr h1, h2⟩
        · rintro ⟨⟨rfl, rfl⟩ | h1, h2⟩
          · exact Or.inl ⟨rfl, rfl⟩
          · exact Or.inr ⟨h1, h2⟩

theorem mem_hSet_iff (h : Headers) (k v a b : String) :
    (a, b) ∈ hSet h k v ↔ (a = k ∧ b = v) ∨ ((a, b) ∈ h ∧ a ≠ k) := by
  simp [hSet, List.mem_cons, mem_hDel_iff, Prod.mk.injEq]

/-! String facts. -/

theorem appendU_ne (s : String) : s ++ "U" ≠ s := by
  intro heq
  have hlen := congrArg String.length heq
  rw [String.length_append] at hlen
  have hu : ("U" : String).length = 1 := rfl
  omega

theorem ctypeFor_ne (fn : String) : ctypeFor fn ≠ "" := by
  unfold ctypeFor
  by_cases hc : mimeByExt (extOf fn) = ""
  · simp [hc]
  · simp [hc]

/-! Relating the serve loops to first-match selection. -/

theorem find_congr {α : Type} (p q : α → Bool) :
    ∀ l : List α, (∀ x ∈ l, p x = q x) → l.find? p = l.find? q := by
  intro l
  induction l with
  | nil => intro _; rfl
  | cons a t ih =>
      intro hpq
      have ha := hpq a (List.mem_cons_self a t)
      cases hp : p a with
      | true =>
          have hq : q a = true := ha.symm.trans hp
          simp [List.find?, hp, hq]
      | false =>
          have hq : q a = false := ha.symm.trans hp
          simp only [List.find?, hp, hq]
          exact ih (fun x hx => hpq x (List.mem_cons_of_mem a hx))

theorem tryCompressed_find (s : Server) (req : Request) (fn ael : String) :
    ∀ l : List Encoding, tryCompressed s req fn ael l =
      (l.find? fun e =>
          containsSub ael e.contentEncoding && (s.info (fn ++ e.fileExt)).isSome).bind
        (fun e => (s.info (fn ++ e.fileExt)).map fun i =>
          serve s req fn e.fileExt e.contentEncoding i.hash i.size none) := by
  intro l
  induction l with
  | nil => rfl
  | cons e rest ih =>
      cases hc : containsSub ael e.contentEncoding with
      | false => simp [tryCompressed, hc, List.find?, ih]
      | true =>
          cases hinf : s.info (fn ++ e.fileExt) with
          | none => simp [tryCompressed, hc, hinf, List.find?, ih]
          | some i => simp [tryCompressed, hc, hinf, List.find?]

theorem tryDecompress_find (s : Server) (req : Request) (fn : String) :
    ∀ l : List Encoding, tryDecompress s req fn l =
      (l.find? fun e => (s.info (fn ++ e.fileExt)).isSome && e.decoder.isSome).bind
        (fun e => (s.info (fn ++ e.fileExt)).bind fun i => e.decoder.map fun d =>
          serve s req fn e.fileExt "" (i.hash ++ "U") 0 (some d)) := by
  intro l
  induction l with
  | nil => rfl
  | cons e rest ih =>
      cases hinf : s.info (fn ++ e.fileExt) with
      | none => simp [tryDecompress, hinf, List.find?, ih]
      | some i =>
          cases hdec : e.decoder with
          | none => simp [tryDecompress, hinf, hdec, List.find?, ih]
          | some d => simp [tryDecompress, hinf, hdec, List.find?]

/-- ServeHTTP for GET/HEAD is: resolve, then serve the chosen representation,
else 404. -/
theorem serveHTTP_resolve (s : Server) (req : Request)
    (hm : req.method = "GET" ∨ req.method = "HEAD") :
    serveHTTP s req =
      match resolveCode s (trimPrefixSlash req.urlPath) req.acceptEncoding with
      | some c => serve s req (trimPrefixSlash req.urlPath) c.suf c.enc c.etag c.cl c.dec
      | none => notFoundResp := by
  have hcond : ¬(req.method ≠ "GET" ∧ req.method ≠ "HEAD") := by
    rcases hm with h | h <;> simp [h]
  unfold serveHTTP resolveCode
  rw [if_neg hcond]
  by_cases hae : req.acceptEncoding = ""
  · rw [if_neg (by simp [hae]), if_neg (by simp [hae])]
    cases hb : s.info (trimPrefixSlash req.urlPath) with
    | some i => simp
    | none =>
        simp only
        rw [tryDecompress_find]
        cases hf : s.encodings.find? (fun e =>
            (s.info (trimPrefixSlash req.urlPath ++ e.fileExt)).isSome && e.decoder.isSome) with
        | none => simp
        | some e =>
            have hp := List.find?_some hf
            rw [Bool.and_eq_true] at hp
            obtain ⟨i, hi⟩ := Option.isSome_iff_exists.mp hp.1
            obtain ⟨d, hd⟩ := Option.isSome_iff_exists.mp hp.2
            simp [hi, hd]
  · rw [if_pos hae, if_pos hae]
    rw [tryCompressed_find]
    cases hf1 : s.encodings.find? (fun e =>
        containsSub (toLowerStr req.acceptEncoding) e.contentEncoding &&
          (s.info (trimPrefixSlash req.urlPath ++ e.fileExt)).isSome) with
    | some e =>
        have hp := List.find?_some hf1
        rw [Bool.and_eq_true] at hp
        obtain ⟨i, hi⟩ := Option.isSome_iff_exists.mp hp.2
        simp [hi]
    | none =>
        simp only [Option.bind_none]
        cases hb : s.info (trimPrefixSlash req.urlPath) with
        | some i => simp
        | none =>
            simp only
            rw [tryDecompress_find]
            cases hf : s.encodings.find? (fun e =>
                (s.info (trimPrefixSlash req.urlPath ++ e.fileExt)).isSome &&
                  e.decoder.isSome) with
            | none => simp
            | some e =>
                have hp := List.find?_some hf
                rw [Bool.and_eq_true] at hp
                obtain ⟨i, hi⟩ := Option.isSome_iff_exists.mp hp.1
                obtain ⟨d, hd⟩ := Option.isSome_iff_exists.mp hp.2
                simp [hi, hd]

/-- Inversion of a decompress-fallback resolution. -/
theorem resolveCode_dec_inv (s : Server) (fn ae : String) (c : Chosen)
    (d : Bytes → Except String Bytes)
    (h : resolveCode s fn ae = some c) (hd : c.dec = some d) :
    c.enc = "" ∧ c.cl = 0 ∧ s.info fn = none ∧
      ∃ e, e ∈ s.encodings ∧ e.decoder = some d ∧ c.suf = e.fileExt ∧
        ∃ i, s.info (fn ++ e.fileExt) = some i ∧ c.etag = i.hash ++ "U" := by
  unfold resolveCode at h
  cases hf1 : (if ae ≠ "" then
      s.encodings.find? (fun e =>
        containsSub (toLowerStr ae) e.contentEncoding && (s.info (fn ++ e.fileExt)).isSome)
    else none) with
  | some e =>
      rw [hf1] at h
      dsimp only at h
      cases hinf : s.info (fn ++ e.fileExt) with
      | none => rw [hinf] at h; simp at h
      | some i =>
          rw [hinf] at h
          simp only [Option.map_some', Option.some.injEq] at h
          subst h
          simp at hd
  | none =>
      rw [hf1] at h
      dsimp only at h
      cases hb : s.info fn with
      | some i =>
          rw [hb] at h
          dsimp only at h
          simp only [Option.some.injEq] at h
          subst h
          simp at hd
      | none =>
          rw [hb] at h
          dsimp only at h
          cases hf3 : s.encodings.find? (fun e =>
              (s.info (fn ++ e.fileExt)).isSome && e.decoder.isSome) with
          | none => rw [hf3] at h; simp at h
          | some e =>
              rw [hf3] at h
              dsimp only at h
              have hp := List.find?_some hf3
              rw [Bool.and_eq_true] at hp
              obtain ⟨i, hi⟩ := Option.isSome_iff_exists.mp hp.1
              obtain ⟨d', hdd⟩ := Option.isSome_iff_exists.mp hp.2
              rw [hi, hdd] at h
              simp only [Option.bind, Option.map_some', Option.some.injEq] at h
              subst h
              simp only [Option.some.injEq] at hd
              subst hd
              exact ⟨rfl, rfl, rfl, e, List.mem_of_find?_eq_some hf3, hdd, rfl, i, hi, rfl⟩

/-- Under lower-case wire names the claim's case-insensitive matching is the
code's matching. -/
theorem resolveSpec_eq_code (s : Server) (fn ae : String)
    (hreg : ∀ e ∈ s.encodings, toLowerStr e.contentEncoding = e.contentEncoding) :
    resolveSpec s fn ae = resolveCode s fn ae := by
  unfold resolveSpec resolveCode
  have hfind : s.encodings.find? (fun e =>
        containsSub (toLowerStr ae) (toLowerStr e.contentEncoding) &&
          (s.info (fn ++ e.fileExt)).isSome)
      = s.encodings.find? (fun e =>
        containsSub (toLowerStr ae) e.contentEncoding && (s.info (fn ++ e.fileExt)).isSome) :=
    find_congr _ _ _ (fun e he => by rw [hreg e he])
  rw [hfind]

/-! Facts about serve. -/

/-- serve never answers 404: that status only arises from http.NotFound. -/
theorem serve_status_ne_404 (s : Server) (req : Request) (fn suf enc hash : String)
    (cl : Nat) (dec : Option (Bytes → Except String Bytes)) :
    (serve s req fn suf enc hash cl dec).status ≠ 404 := by
  unfold serve onErrorDefault copyResp serveContentModel
  dsimp only
  repeat' split
  all_goals simp

/-- A non-empty wire encoding reaches the final headers on every path of
serve that is not the If-None-Match short circuit. -/
theorem serve_CE (s : Server) (req : Request) (fn suf enc hash : String)
    (cl : Nat) (dec : Option (Bytes → Except String Bytes))
    (henc : enc ≠ "") (hinm : req.ifNoneMatch ≠ hash) :
    hGet (serve s req fn suf enc hash cl dec).headers "Content-Encoding" = enc := by
  unfold serve
  rw [if_neg hinm]
  dsimp only
  rw [if_pos henc]
  have hce2 : hGet (hSet (hSet (hSet [] "Content-Type" (ctypeFor fn)) "Etag" hash)
      "Content-Encoding" enc) "Content-Encoding" = enc := hGet_hSet_self _ _ _
  cases ho : s.fs.openFile (fn ++ suf) with
  | error e =>
      dsimp only [onErrorDefault]
      rw [hGet_hSet_ne _ (by decide), hGet_hSet_ne _ (by decide)]
      exact hce2
  | ok f =>
      dsimp only
      have hce3 : hGet (if 0 < cl then
          hSet (hSet (hSet (hSet [] "Content-Type" (ctypeFor fn)) "Etag" hash)
            "Content-Encoding" enc) "Content-Length" (toString cl)
        else hSet (hSet (hSet [] "Content-Type" (ctypeFor fn)) "Etag" hash)
            "Content-Encoding" enc) "Content-Encoding" = enc := by
        by_cases hcl : 0 < cl
        · rw [if_pos hcl, hGet_hSet_ne _ (by decide)]; exact hce2
        · rw [if_neg hcl]; exact hce2
      by_cases hhd : req.method = "HEAD"
      · rw [if_pos hhd]
        exact hce3
      · rw [if_neg hhd]
        cases dec with
        | some d =>
            dsimp only
            cases hdr : d f.content with
            | error e =>
                dsimp only [onErrorDefault]
                rw [hGet_hSet_ne _ (by decide), hGet_hSet_ne _ (by decide),
                  hGet_hDel_ne _ (by decide)]
                exact hce3
            | ok decoded =>
                dsimp only [copyResp]
                exact hce3
        | none =>
            dsimp only
            cases hsk : f.seekable with
            | false =>
                simp only [hsk, Bool.false_eq_true, if_false]
                dsimp only [copyResp]
                exact hce3
            | true =>
                simp only [hsk, if_true]
                unfold serveContentModel
                by_cases hstar : req.ifNoneMatch = "*"
                · rw [if_pos hstar]
                  dsimp only
                  rw [hGet_hDel_ne _ (by decide), hGet_hDel_ne _ (by decide)]
                  exact hce3
                · rw [if_neg hstar]
                  dsimp only
                  have har : hGet (hSet (if 0 < cl then
                      hSet (hSet (hSet (hSet [] "Content-Type" (ctypeFor fn)) "Etag" hash)
                        "Content-Encoding" enc) "Content-Length" (toString cl)
                    else hSet (hSet (hSet [] "Content-Type" (ctypeFor fn)) "Etag" hash)
                        "Content-Encoding" enc) "Accept-Ranges" "bytes")
                      "Content-Encoding" = enc := by
                    rw [hGet_hSet_ne _ (by decide)]; exact hce3
                  rw [if_neg (by rw [har]; exact henc)]
                  exact har

/-- List.any is the success of List.find?. -/
theorem any_eq_find_isSome {α : Type} (p : α → Bool) :
    ∀ l : List α, l.any p = (l.find? p).isSome := by
  intro l
  induction l with
  | nil => rfl
  | cons a t ih =>
      cases hp : p a with
      | true => simp [List.any, List.find?, hp]
      | false => simp [List.any, List.find?, hp, ih]

/-- The existence predicate agrees with the code's resolution. -/
theorem found_iff (s : Server) (req : Request) :
    Found s req = true ↔
      (resolveCode s (trimPrefixSlash req.urlPath) req.acceptEncoding).isSome = true := by
  unfold Found resolveCode
  dsimp only
  rw [any_eq_find_isSome, any_eq_find_isSome]
  by_cases hae : req.acceptEncoding = ""
  · rw [if_neg (by simp [hae]), if_neg (by simp [hae])]
    cases hb : s.info (trimPrefixSlash req.urlPath) with
    | some i => simp
    | none =>
        cases hf : s.encodings.find? (fun e =>
            (s.info (trimPrefixSlash req.urlPath ++ e.fileExt)).isSome && e.decoder.isSome) with
        | none => simp
        | some e =>
            have hp := List.find?_some hf
            rw [Bool.and_eq_true] at hp
            obtain ⟨i, hi⟩ := Option.isSome_iff_exists.mp hp.1
            obtain ⟨d, hd⟩ := Option.isSome_iff_exists.mp hp.2
            simp [hi, hd]
  · rw [if_pos hae, if_pos hae]
    cases hf1 : s.encodings.find? (fun e =>
        containsSub (toLowerStr req.acceptEncoding) e.contentEncoding &&
          (s.info (trimPrefixSlash req.urlPath ++ e.fileExt)).isSome) with
    | some e =>
        have hp := List.find?_some hf1
        rw [Bool.and_eq_true] at hp
        obtain ⟨i, hi⟩ := Option.isSome_iff_exists.mp hp.2
        simp [hi]
    | none =>
        simp only [Option.isSome_none, Bool.false_or]
        cases hb : s.info (trimPrefixSlash req.urlPath) with
        | some i => simp
        | none =>
            cases hf : s.encodings.find? (fun e =>
                (s.info (trimPrefixSlash req.urlPath ++ e.fileExt)).isSome &&
                  e.decoder.isSome) with
            | none => simp
            | some e =>
                have hp := List.find?_some hf
                rw [Bool.and_eq_true] at hp
                obtain ⟨i, hi⟩ := Option.isSome_iff_exists.mp hp.1
                obtain ⟨d, hd⟩ := Option.isSome_iff_exists.mp hp.2
                simp [hi, hd]

/-! The index-construction walk. -/

theorem lookupLast_append (a b : List (String × Bytes)) (k : String) :
    lookupLast (a ++ b) k = match lookupLast b k with
      | some r => some r
      | none => lookupLast a k := by
  induction a with
  | nil =>
      simp only [List.nil_append, lookupLast]
      cases h : lookupLast b k <;> simp [lookupLast]
  | cons x t ih =>
      obtain ⟨xk, xv⟩ := x
      have hstep : lookupLast (((xk, xv) :: t) ++ b) k =
          match lookupLast (t ++ b) k with
          | some r => some r
          | none => if k = xk then some xv else none := rfl
      rw [hstep, ih]
      cases h : lookupLast b k with
      | some r => rfl
      | none =>
          rw [show lookupLast ((xk, xv) :: t) k =
              match lookupLast t k with
              | some r => some r
              | none => if k = xk then some xv else none from rfl]

/-- The walk succeeds exactly when no entry failed to list or read. -/
theorem hashDirList_isOk : ∀ (ts : List FTree) (p : String) (m : String → Option FileInfo),
    isOkE (hashDirList ts p m) = treeListOk ts := by
  intro ts p m
  induction ts, p, m using hashDirList.induct with
  | case1 p m => simp [hashDirList, treeListOk, isOkE]
  | case2 n sk rest p m => simp [hashDirList, treeListOk, isOkE]
  | case3 n c sk rest p m ih =>
      simp only [hashDirList, treeListOk]
      exact ih
  | case4 n rest p m => simp [hashDirList, treeListOk, isOkE]
  | case5 n es rest p m e hx ihes =>
      have hes : treeListOk es = false := by rw [← ihes, hx]; rfl
      simp [hashDirList, treeListOk, isOkE, hx, hes]
  | case6 n es rest p m m1 hx ihes ihrest =>
      have hes : treeListOk es = true := by rw [← ihes, hx]; rfl
      simp only [hashDirList, hx, treeListOk, hes, Bool.true_and]
      exact ihrest

/-- The index built by a successful walk: each key holds the base-36 FNV-1
hash and size of the last file stored at that path, and keys not walked keep
their prior binding. -/
theorem hashDirList_lookup : ∀ (ts : List FTree) (p : String)
    (m m' : String → Option FileInfo), hashDirList ts p m = Except.ok m' →
    ∀ k, m' k = match lookupLast (treeFilesList ts p) k with
      | some c => some (mkInfo c)
      | none => m k := by
  intro ts p m
  induction ts, p, m using hashDirList.induct with
  | case1 p m =>
      intro m' h k
      simp only [hashDirList, Except.ok.injEq] at h
      subst h
      simp [treeFilesList, lookupLast]
  | case2 n sk rest p m =>
      intro m' h k
      simp [hashDirList] at h
  | case3 n c sk rest p m ih =>
      intro m' h k
      simp only [hashDirList] at h
      rw [ih m' h k]
      rw [show treeFilesList (FTree.file n (some c) sk :: rest) p =
          (joinPath p n, c) :: treeFilesList rest p from by simp [treeFilesList]]
      rw [show lookupLast ((joinPath p n, c) :: treeFilesList rest p) k =
          match lookupLast (treeFilesList rest p) k with
          | some r => some r
          | none => if k = joinPath p n then some c else none from rfl]
      cases h2 : lookupLast (treeFilesList rest p) k with
      | some r => rfl
      | none => by_cases hk : k = joinPath p n <;> simp [indexInsert, hk]
  | case4 n rest p m =>
      intro m' h k
      simp [hashDirList] at h
  | case5 n es rest p m e hx ihes =>
      intro m' h k
      simp only [hashDirList, hx] at h
      exact absurd h (by simp)
  | case6 n es rest p m m1 hx ihes ihrest =>
      intro m' h k
      simp only [hashDirList, hx] at h
      rw [ihrest m' h k]
      rw [show treeFilesList (FTree.dir n (some es) :: rest) p =
          treeFilesList es (joinPath p n) ++ treeFilesList rest p from by simp [treeFilesList]]
      rw [lookupLast_append]
      cases h2 : lookupLast (treeFilesList rest p) k with
      | some r => rfl
      | none => exact ihes m1 hx k

/-! The claims. -/

/-- C1: for every GET or HEAD request (over a registry of non-empty,
lower-case wire names, as all shipped codecs are), the server resolves the
representation by exactly the three steps, in order: first codec in
registration order whose wire name appears case-insensitively as a substring
of a non-empty Accept-Encoding and whose path+suffix is indexed (served
verbatim, Content-Encoding set to the wire name); else the bare path (no
Content-Encoding); else the first codec with an indexed path+suffix and a
non-nil decode function (transparent decompression); else 404. -/
theorem c1_resolution_order (s : Server) (req : Request)
    (hreg : ∀ e ∈ s.encodings,
      toLowerStr e.contentEncoding = e.contentEncoding ∧ e.contentEncoding ≠ "")
    (hm : req.method = "GET" ∨ req.method = "HEAD") :
    C1Prop s req := by
  have hspec : resolveSpec s (trimPrefixSlash req.urlPath) req.acceptEncoding
      = resolveCode s (trimPrefixSlash req.urlPath) req.acceptEncoding :=
    resolveSpec_eq_code s _ _ (fun e he => (hreg e he).1)
  constructor
  · rw [hspec]
    exact serveHTTP_resolve s req hm
  · intro c hc hinm henc
    rw [hspec] at hc
    have h1 := serveHTTP_resolve s req hm
    rw [hc] at h1
    dsimp only at h1
    rw [h1]
    exact serve_CE s req _ c.suf c.enc c.etag c.cl c.dec henc hinm

/-- Witness for C1: fixServer holds a.txt and a.txt.gz; a GET accepting gzip. -/
theorem c1_resolution_order_witness :
    (∀ e ∈ fixServer.encodings,
      toLowerStr e.contentEncoding = e.contentEncoding ∧ e.contentEncoding ≠ "") ∧
    (reqGzA.method = "GET" ∨ reqGzA.method = "HEAD") ∧ C1Prop fixServer reqGzA := by
  have hreg : ∀ e ∈ fixServer.encodings,
      toLowerStr e.contentEncoding = e.contentEncoding ∧ e.contentEncoding ≠ "" := by
    intro e he
    simp only [fixServer, List.mem_singleton] at he
    subst he
    exact ⟨rfl, by decide⟩
  exact ⟨hreg, Or.inl rfl, c1_resolution_order fixServer reqGzA hreg (Or.inl rfl)⟩

/-- C2 (code bug): the compressed-path response carries Content-Encoding but
no Vary header at all — serve never sets Vary, although the repository's own
test TestServer_ServeHTTP_get_gz asserts Vary: Accept-Encoding. -/
theorem c2_compressed_response_lacks_vary :
    (serveHTTP fixServer reqGzA).status = 200 ∧
    hGet (serveHTTP fixServer reqGzA).headers "Content-Encoding" = "gzip" ∧
    ((serveHTTP fixServer reqGzA).headers.all fun p => p.1 != "Vary") = true := by
  decide

/-- C3 (spec-modelled Found): the predicate is true exactly when resolution
succeeds, it reads nothing from the file-system collaborator, and for GET/HEAD
it is true exactly when the handler would not answer 404. -/
theorem c3_found_predicate (s : Server) (req : Request) : C3Prop s req := by
  refine ⟨found_iff s req, fun g => rfl, ?_⟩
  intro hm
  rw [found_iff s req]
  have h1 := serveHTTP_resolve s req hm
  constructor
  · intro hres h404
    obtain ⟨c, hc⟩ := Option.isSome_iff_exists.mp hres
    rw [hc] at h1
    dsimp only at h1
    rw [h1] at h404
    exact serve_status_ne_404 _ _ _ _ _ _ _ _ h404
  · intro hne
    by_contra hnot
    have hcn : resolveCode s (trimPrefixSlash req.urlPath) req.acceptEncoding = none := by
      cases hcc : resolveCode s (trimPrefixSlash req.urlPath) req.acceptEncoding with
      | none => rfl
      | some c => exact absurd (by rw [hcc]; rfl) hnot
    rw [hcn] at h1
    dsimp only at h1
    exact hne (by rw [h1]; rfl)

/-- Witness for C3 at a concrete server and request. -/
theorem c3_found_predicate_witness : C3Prop fixServer reqGzA :=
  c3_found_predicate fixServer reqGzA

/-- C4: a decompress-fallback resolution's validator is the sidecar's index
hash with the "U" marker, never equal to the bare hash that serving the same
sidecar verbatim uses. -/
theorem c4_decompress_etag_marker (s : Server) (fn ae : String) (c : Chosen)
    (d : Bytes → Except String Bytes)
    (hres : resolveCode s fn ae = some c) (hdec : c.dec = some d) :
    C4Prop s fn c := by
  obtain ⟨henc, hcl, hbare, e, hmem, hd, hsuf, i, hi, hetag⟩ :=
    resolveCode_dec_inv s fn ae c d hres hdec
  refine ⟨e, hmem, i, hi, hsuf, hetag, ?_⟩
  rw [hetag]
  exact appendU_ne i.hash

/-- Witness for C4: only b.bin.gz is stored; an unaccepting request falls back
to decompression with validator "hbU". -/
theorem c4_decompress_etag_marker_witness :
    resolveCode sidecarServer "b.bin" "" = some chosenB ∧
    chosenB.dec = some gunzipModel ∧ C4Prop sidecarServer "b.bin" chosenB :=
  ⟨rfl, rfl, c4_decompress_etag_marker sidecarServer "b.bin" "" chosenB gunzipModel rfl rfl⟩

/-- C5: when only a compressed sidecar resolves (decompress fallback) and the
stored artifact is the codec's encoding of some raw bytes, with decode a left
inverse of encode, the GET response body is the raw bytes, re-encoding it
reproduces the stored artifact byte for byte, and no Content-Encoding header
is present. -/
theorem c5_roundtrip (s : Server) (req : Request) (c : Chosen)
    (d : Bytes → Except String Bytes) (encode : Bytes → Bytes)
    (raw stored : Bytes) (sk : Bool)
    (hm : req.method = "GET")
    (hres : resolveCode s (trimPrefixSlash req.urlPath) req.acceptEncoding = some c)
    (hdec : c.dec = some d)
    (hopen : s.fs.openFile (trimPrefixSlash req.urlPath ++ c.suf) =
      Except.ok { content := stored, seekable := sk })
    (hstored : stored = encode raw)
    (hinv : ∀ b, d (encode b) = Except.ok b)
    (hinm : req.ifNoneMatch ≠ c.etag) :
    C5Prop s req encode raw stored := by
  obtain ⟨henc, hcl, hbare, e, hmem, hd, hsuf, i, hi, hetag⟩ :=
    resolveCode_dec_inv s _ _ c d hres hdec
  have h1 := serveHTTP_resolve s req (Or.inl hm)
  rw [hres] at h1
  dsimp only at h1
  rw [hdec, henc, hcl] at h1
  unfold serve at h1
  rw [if_neg hinm] at h1
  dsimp only at h1
  rw [if_neg (by simp)] at h1
  rw [hopen] at h1
  dsimp only at h1
  rw [if_neg (by rw [hm]; decide)] at h1
  rw [hstored, hinv raw] at h1
  dsimp only [copyResp] at h1
  rw [if_neg (by decide)] at h1
  refine ⟨?_, ?_, ?_⟩
  · rw [h1]
  · rw [h1, ← hstored]
  · intro v hv
    rw [h1] at hv
    simp [mem_hSet_iff] at hv

/-- Witness for C5 with the toy codec: c.bin.tc stores tcEncode [5, 6, 7]. -/
theorem c5_roundtrip_witness :
    reqTc.method = "GET" ∧
    resolveCode tcServer (trimPrefixSlash reqTc.urlPath) reqTc.acceptEncoding = some chosenTc ∧
    chosenTc.dec = some tcDecoder ∧
    tcServer.fs.openFile (trimPrefixSlash reqTc.urlPath ++ chosenTc.suf) =
      Except.ok { content := [17, 5, 6, 7], seekable := false } ∧
    ([17, 5, 6, 7] : Bytes) = tcEncode [5, 6, 7] ∧
    (∀ b, tcDecoder (tcEncode b) = Except.ok b) ∧
    reqTc.ifNoneMatch ≠ chosenTc.etag ∧
    C5Prop tcServer reqTc tcEncode [5, 6, 7] [17, 5, 6, 7] := by
  have hinv : ∀ b, tcDecoder (tcEncode b) = Except.ok b := fun b => rfl
  have hinm : reqTc.ifNoneMatch ≠ chosenTc.etag := by decide
  exact ⟨rfl, rfl, rfl, rfl, rfl, hinv, hinm,
    c5_roundtrip tcServer reqTc chosenTc tcDecoder tcEncode [5, 6, 7] [17, 5, 6, 7] false
      rfl rfl rfl rfl rfl hinv hinm⟩

/-- C6: an If-None-Match value equal to the validator (one exact string
comparison) short-circuits to a bare 304 — empty body, no headers, no hook —
and does so for every file system (so before any open or read). -/
theorem c6_if_none_match_304 (s : Server) (req : Request) (fn suf enc hash : String)
    (cl : Nat) (dec : Option (Bytes → Except String Bytes))
    (hinm : req.ifNoneMatch = hash) : C6Prop s req fn suf enc hash cl dec := by
  constructor
  · unfold serve
    rw [if_pos hinm]
  · intro g
    unfold serve
    simp only [if_pos hinm]

/-- Witness for C6: replaying the sidecar's ETag yields the bare 304. -/
theorem c6_if_none_match_304_witness :
    reqInmA.ifNoneMatch = "hz" ∧ C6Prop fixServer reqInmA "a.txt" ".gz" "gzip" "hz" 3 none :=
  ⟨rfl, c6_if_none_match_304 fixServer reqInmA "a.txt" ".gz" "gzip" "hz" 3 none rfl⟩

/-- C7: construction walks the tree once; it aborts with an error exactly when
some listing or read fails (so a partially built index is never served), and
on success the returned server's index maps exactly the regular files
discovered under the root — each to the base-36 FNV-1 hash of its content and
its byte count, with no entry for directories (the flatten contains only
files). The index is immutable afterwards: serveHTTP returns only a Response
and no operation updates Server.info. -/
theorem c7_index_construction (fsv : FS) (opts : List (List Encoding → List Encoding)) :
    (fsv.rootEntries = none → FileServer fsv opts = Except.error ".")
    ∧ (∀ ts, fsv.rootEntries = some ts →
        (isOkE (FileServer fsv opts) = treeListOk ts
         ∧ ∀ s, FileServer fsv opts = Except.ok s →
             ∀ k, s.info k = (lookupLast (treeFilesList ts ".") k).map mkInfo)) := by
  constructor
  · intro hroot
    unfold FileServer
    rw [hroot]
  · intro ts hroot
    constructor
    · unfold FileServer
      rw [hroot]
      dsimp only
      have hok := hashDirList_isOk ts "." emptyIndex
      cases hh : hashDirList ts "." emptyIndex with
      | error e => rw [hh] at hok; exact hok
      | ok m => rw [hh] at hok; exact hok
    · intro s hs k
      unfold FileServer at hs
      rw [hroot] at hs
      dsimp only at hs
      cases hh : hashDirList ts "." emptyIndex with
      | error e =>
          rw [hh] at hs
          exact absurd hs (by simp)
      | ok m =>
          rw [hh] at hs
          simp only [Except.ok.injEq] at hs
          subst hs
          dsimp only
          rw [hashDirList_lookup ts "." emptyIndex m hh k]
          cases hl : lookupLast (treeFilesList ts ".") k <;> rfl

/-- Witness for C7: a failing root listing aborts; the two-level tree1 builds
successfully. -/
theorem c7_index_construction_witness :
    FileServer fsNoneW [] = Except.error "." ∧
    isOkE (FileServer fsTreeW []) = treeListOk tree1 :=
  ⟨(c7_index_construction fsNoneW []).1 rfl,
    ((c7_index_construction fsTreeW []).2 tree1 rfl).1⟩

/-- ServeContent (as modelled) keeps every header other than Accept-Ranges and
Content-Length when If-None-Match is not star. -/
theorem hGet_serveContent (X : Headers) (inm : String) (content : Bytes) (k : String)
    (hstar : inm ≠ "*") (h1 : "Content-Length" ≠ k) (h2 : "Accept-Ranges" ≠ k) :
    hGet (serveContentModel inm X content).headers k = hGet X k := by
  unfold serveContentModel
  rw [if_neg hstar]
  dsimp only
  by_cases hce : hGet (hSet X "Accept-Ranges" "bytes") "Content-Encoding" = ""
  · rw [if_pos hce, hGet_hSet_ne _ h1, hGet_hSet_ne _ h2]
  · rw [if_neg hce, hGet_hSet_ne _ h2]

/-- ServeContent (as modelled) answers 200 when If-None-Match is not star. -/
theorem serveContent_status (X : Headers) (inm : String) (content : Bytes)
    (hstar : inm ≠ "*") : (serveContentModel inm X content).status = 200 := by
  unfold serveContentModel
  rw [if_neg hstar]

/-- serve for a HEAD request, compared with the same arguments for GET: empty
body, no decode, same status and same Content-Encoding/Etag/Content-Type,
provided the open succeeds, any decoder succeeds on the opened bytes, and
If-None-Match is not the star form. -/
theorem serve_head_vs_get (s : Server) (reqG reqH : Request)
    (fn suf enc hash : String) (cl : Nat) (dec : Option (Bytes → Except String Bytes))
    (hG : reqG.method = "GET") (hH : reqH.method = "HEAD")
    (hinm : reqG.ifNoneMatch = reqH.ifNoneMatch)
    (hof : ∃ f, s.fs.openFile (fn ++ suf) = Except.ok f ∧
      (∀ d, dec = some d → ∃ b, d f.content = Except.ok b))
    (hstar : reqH.ifNoneMatch ≠ "*") :
    (serve s reqH fn suf enc hash cl dec).body = [] ∧
    (serve s reqH fn suf enc hash cl dec).decodeInvoked = false ∧
    (serve s reqH fn suf enc hash cl dec).status =
      (serve s reqG fn suf enc hash cl dec).status ∧
    hGet (serve s reqH fn suf enc hash cl dec).headers "Content-Encoding" =
      hGet (serve s reqG fn suf enc hash cl dec).headers "Content-Encoding" ∧
    hGet (serve s reqH fn suf enc hash cl dec).headers "Etag" =
      hGet (serve s reqG fn suf enc hash cl dec).headers "Etag" ∧
    hGet (serve s reqH fn suf enc hash cl dec).headers "Content-Type" =
      hGet (serve s reqG fn suf enc hash cl dec).headers "Content-Type" := by
  unfold serve
  rw [hinm]
  by_cases hi : reqH.ifNoneMatch = hash
  · simp only [if_pos hi]
    exact ⟨trivial, trivial, trivial, trivial, trivial, trivial⟩
  · simp only [if_neg hi]
    obtain ⟨f, hf, hdecok⟩ := hof
    rw [hf]
    dsimp only
    rw [if_pos hH]
    rw [if_neg (show ¬reqG.method = "HEAD" from by rw [hG]; decide)]
    cases dec with
    | some d =>
        dsimp only
        obtain ⟨b, hb⟩ := hdecok d rfl
        rw [hb]
        dsimp only [copyResp]
        refine ⟨rfl, rfl, rfl, rfl, rfl, rfl⟩
    | none =>
        dsimp only
        cases hsk : f.seekable with
        | false =>
            rw [if_neg (by simp)]
            dsimp only [copyResp]
            refine ⟨rfl, rfl, rfl, rfl, rfl, rfl⟩
        | true =>
            rw [if_pos rfl]
            refine ⟨rfl, rfl, ?_, ?_, ?_, ?_⟩
            · rw [serveContent_status _ _ _ hstar]
            · rw [hGet_serveContent _ _ _ _ hstar (by decide) (by decide)]
            · rw [hGet_serveContent _ _ _ _ hstar (by decide) (by decide)]
            · rw [hGet_serveContent _ _ _ _ hstar (by decide) (by decide)]

/-- C8 (amended): for every resolvable GET/HEAD request pair whose underlying
open succeeds, whose decoder (if the resolution needs one) succeeds on the
stored bytes, and whose If-None-Match is not "*": HEAD sends an empty body,
never invokes the decoder, and carries the same status, Content-Encoding,
ETag and Content-Type as the equivalent GET. -/
theorem c8_head_get_amended (s : Server) (req : Request)
    (hres : (resolveCode s (trimPrefixSlash req.urlPath) req.acceptEncoding).isSome = true)
    (hopen : ∀ p, ∃ f, s.fs.openFile p = Except.ok f)
    (hdecs : ∀ e ∈ s.encodings, ∀ d, e.decoder = some d →
      ∀ p f, s.fs.openFile p = Except.ok f → ∃ b, d f.content = Except.ok b)
    (hstar : req.ifNoneMatch ≠ "*") : C8Prop s req := by
  obtain ⟨c, hc⟩ := Option.isSome_iff_exists.mp hres
  have hG : serveHTTP s { req with method := "GET" } =
      serve s { req with method := "GET" }
        (trimPrefixSlash req.urlPath) c.suf c.enc c.etag c.cl c.dec := by
    have h1 := serveHTTP_resolve s { req with method := "GET" } (Or.inl rfl)
    rw [show ({ req with method := "GET" } : Request).urlPath = req.urlPath from rfl,
      show ({ req with method := "GET" } : Request).acceptEncoding
        = req.acceptEncoding from rfl, hc] at h1
    exact h1
  have hH : serveHTTP s { req with method := "HEAD" } =
      serve s { req with method := "HEAD" }
        (trimPrefixSlash req.urlPath) c.suf c.enc c.etag c.cl c.dec := by
    have h1 := serveHTTP_resolve s { req with method := "HEAD" } (Or.inr rfl)
    rw [show ({ req with method := "HEAD" } : Request).urlPath = req.urlPath from rfl,
      show ({ req with method := "HEAD" } : Request).acceptEncoding
        = req.acceptEncoding from rfl, hc] at h1
    exact h1
  have hof : ∃ f, s.fs.openFile (trimPrefixSlash req.urlPath ++ c.suf) = Except.ok f ∧
      (∀ d, c.dec = some d → ∃ b, d f.content = Except.ok b) := by
    obtain ⟨f, hf⟩ := hopen (trimPrefixSlash req.urlPath ++ c.suf)
    refine ⟨f, hf, ?_⟩
    intro d hd
    obtain ⟨henc, hcl, hbare, e, hmem, hdd, hsuf, i, hi, hetag⟩ :=
      resolveCode_dec_inv s _ _ c d hc hd
    exact hdecs e hmem d hdd _ f hf
  unfold C8Prop
  rw [hG, hH]
  exact serve_head_vs_get s { req with method := "GET" } { req with method := "HEAD" }
    (trimPrefixSlash req.urlPath) c.suf c.enc c.etag c.cl c.dec rfl rfl rfl hof hstar

/-- C8 counterexample: with only a corrupt sidecar stored (as in the repo's
testdata/bad.png.gz), a GET routes the decode failure to the hook (500, ETag
deleted) while the equivalent HEAD answers 200 with the ETag set — the claim's
"same status code and headers on every resolution path" is false as stated. -/
theorem c8_head_get_counterexample :
    (serveHTTP badServer reqBadGet).status = 500 ∧
    (serveHTTP badServer reqBadHead).status = 200 ∧
    hGet (serveHTTP badServer reqBadGet).headers "Etag" = "" ∧
    hGet (serveHTTP badServer reqBadHead).headers "Etag" = "hU" := by
  decide

/-- Witness for C8 (amended) at a server whose opens and decodes all succeed. -/
theorem c8_head_get_amended_witness :
    (resolveCode okServer (trimPrefixSlash reqGzA.urlPath) reqGzA.acceptEncoding).isSome
      = true ∧
    (∀ p, ∃ f, okServer.fs.openFile p = Except.ok f) ∧
    reqGzA.ifNoneMatch ≠ "*" ∧ C8Prop okServer reqGzA := by
  have hopen : ∀ p, ∃ f, okServer.fs.openFile p = Except.ok f := fun p => ⟨_, rfl⟩
  have hdecs : ∀ e ∈ okServer.encodings, ∀ d, e.decoder = some d →
      ∀ p f, okServer.fs.openFile p = Except.ok f → ∃ b, d f.content = Except.ok b := by
    intro e he d hd p f hf
    simp only [okServer, List.mem_singleton] at he
    subst he
    simp only [GzipEncoding, Option.some.injEq] at hd
    subst hd
    have hfe : f = { content := [31, 139, 7], seekable := false } := by
      simp only [okServer] at hf
      exact (Except.ok.injEq _ _).mp hf.symm
    subst hfe
    exact ⟨[7], rfl⟩
  exact ⟨by decide, hopen, by decide,
    c8_head_get_amended okServer reqGzA (by decide) hopen hdecs (by decide)⟩

/-- C9 counterexample: a zero-byte stored file behind a non-seeking handle is
transferred verbatim (200, empty body, ETag set) with no Content-Length header
— the claim's "every verbatim response carries Content-Length" is false as
stated, because serve only sets it when the stored size is positive. -/
theorem c9_contentlength_counterexample :
    (serveHTTP emptyFileServer reqEmptyGet).status = 200 ∧
    (serveHTTP emptyFileServer reqEmptyGet).body = [] ∧
    hGet (serveHTTP emptyFileServer reqEmptyGet).headers "Etag" = "he" ∧
    ((serveHTTP emptyFileServer reqEmptyGet).headers.all
      fun p => p.1 != "Content-Length") = true := by
  decide

/-- C9 (amended): a verbatim GET response carries Content-Length equal to the
stored byte size whenever that size is positive or the stream is seekable with
no Content-Encoding (ServeContent supplies the value); and every response
produced through the decompress fallback omits Content-Length on every path. -/
theorem c9_contentlength_amended (s : Server) (req : Request) :
    ((req.method = "GET") → ∀ c f,
      resolveCode s (trimPrefixSlash req.urlPath) req.acceptEncoding = some c →
      c.dec = none →
      s.fs.openFile (trimPrefixSlash req.urlPath ++ c.suf) = Except.ok f →
      req.ifNoneMatch ≠ c.etag → req.ifNoneMatch ≠ "*" →
      f.content.length = c.cl →
      (0 < c.cl ∨ (f.seekable = true ∧ c.enc = "")) →
      hGet (serveHTTP s req).headers "Content-Length" = toString c.cl)
    ∧ ((req.method = "GET" ∨ req.method = "HEAD") → ∀ c,
      resolveCode s (trimPrefixSlash req.urlPath) req.acceptEncoding = some c →
      c.dec.isSome = true →
      ∀ v, ("Content-Length", v) ∉ (serveHTTP s req).headers) := by
  constructor
  · intro hm c f hres hdec hopen hinm hstar hcoh hcl
    have h1 := serveHTTP_resolve s req (Or.inl hm)
    rw [hres] at h1
    dsimp only at h1
    rw [h1]
    unfold serve
    rw [if_neg hinm]
    dsimp only
    rw [hopen]
    dsimp only
    rw [if_neg (show ¬req.method = "HEAD" from by rw [hm]; decide)]
    rw [hdec]
    dsimp only
    rcases hcl with hpos | ⟨hseek, hence⟩
    · rw [if_pos hpos]
      cases hsk : f.seekable with
      | false =>
          rw [if_neg (by simp)]
          dsimp only [copyResp]
          exact hGet_hSet_self _ _ _
      | true =>
          rw [if_pos rfl]
          unfold serveContentModel
          rw [if_neg hstar]
          dsimp only
          by_cases henc : c.enc = ""
          · rw [henc, if_neg (show ¬("" : String) ≠ "" from by simp)]
            rw [if_pos (by
              rw [hGet_hSet_ne _ (by decide), hGet_hSet_ne _ (by decide),
                hGet_hSet_ne _ (by decide), hGet_hSet_ne _ (by decide)]
              rfl)]
            rw [hGet_hSet_self, hcoh]
          · rw [if_pos henc]
            rw [if_neg (by
              rw [hGet_hSet_ne _ (by decide), hGet_hSet_ne _ (by decide), hGet_hSet_self]
              exact henc)]
            rw [hGet_hSet_ne _ (by decide), hGet_hSet_self]
    · rw [hence, if_neg (show ¬("" : String) ≠ "" from by simp), if_pos hseek]
      unfold serveContentModel
      rw [if_neg hstar]
      dsimp only
      rw [if_pos (by
        by_cases hp : 0 < c.cl
        · rw [if_pos hp, hGet_hSet_ne _ (by decide), hGet_hSet_ne _ (by decide),
            hGet_hSet_ne _ (by decide), hGet_hSet_ne _ (by decide)]
          rfl
        · rw [if_neg hp, hGet_hSet_ne _ (by decide), hGet_hSet_ne _ (by decide),
            hGet_hSet_ne _ (by decide)]
          rfl)]
      rw [hGet_hSet_self, hcoh]
  · intro hm c hres hdecS v hv
    obtain ⟨d, hd⟩ := Option.isSome_iff_exists.mp hdecS
    obtain ⟨henc, hcl0, hbare, e, hmem, hdd, hsuf, i, hi, hetag⟩ :=
      resolveCode_dec_inv s _ _ c d hres hd
    have h1 := serveHTTP_resolve s req hm
    rw [hres] at h1
    dsimp only at h1
    rw [h1] at hv
    unfold serve at hv
    rw [henc, hcl0, hd] at hv
    by_cases hinm : req.ifNoneMatch = c.etag
    · rw [if_pos hinm] at hv
      simp at hv
    · rw [if_neg hinm] at hv
      dsimp only at hv
      rw [if_neg (by simp)] at hv
      cases ho : s.fs.openFile (trimPrefixSlash req.urlPath ++ c.suf) with
      | error er =>
          rw [ho] at hv
          dsimp only [onErrorDefault] at hv
          simp [mem_hSet_iff] at hv
      | ok f =>
          rw [ho] at hv
          dsimp only at hv
          by_cases hhd : req.method = "HEAD"
          · rw [if_pos hhd] at hv
            rw [if_neg (show ¬(0 : Nat) < 0 from by decide)] at hv
            simp [mem_hSet_iff] at hv
          · rw [if_neg hhd] at hv
            cases hdr : d f.content with
            | error er =>
                rw [hdr] at hv
                dsimp only [onErrorDefault] at hv
                rw [if_neg (show ¬(0 : Nat) < 0 from by decide)] at hv
                simp [mem_hSet_iff, mem_hDel_iff] at hv
            | ok b =>
                rw [hdr] at hv
                dsimp only [copyResp] at hv
                rw [if_neg (show ¬(0 : Nat) < 0 from by decide)] at hv
                simp [mem_hSet_iff] at hv

/-- Witness for C9 (amended): a.txt (3 bytes) gets Content-Length "3"; the
decompress fallback for b.bin carries no Content-Length. -/
theorem c9_contentlength_amended_witness :
    reqPlainA.method = "GET" ∧
    resolveCode fixServer (trimPrefixSlash reqPlainA.urlPath) reqPlainA.acceptEncoding
      = some chosenA ∧
    hGet (serveHTTP fixServer reqPlainA).headers "Content-Length" = toString chosenA.cl ∧
    (∀ v, ("Content-Length", v) ∉ (serveHTTP sidecarServer reqSidecarGet).headers) := by
  refine ⟨rfl, rfl, ?_, ?_⟩
  · exact (c9_contentlength_amended fixServer reqPlainA).1 rfl chosenA
      { content := [1, 2, 3], seekable := true } rfl rfl rfl (by decide) (by decide) rfl
      (Or.inl (by decide))
  · exact (c9_contentlength_amended sidecarServer reqSidecarGet).2 (Or.inl rfl) chosenB
      rfl rfl

/-- C10: for a resolved request not short-circuited by If-None-Match, an open
failure invokes the hook with ETag, Content-Type (and Content-Encoding when a
compressed representation was chosen) already set, and they remain set on the
response; the ETag is deleted before the hook only when a decode fails. -/
theorem c10_open_failure_headers (s : Server) (req : Request) (fn suf enc hash : String)
    (cl : Nat) (dec : Option (Bytes → Except String Bytes))
    (hinm : req.ifNoneMatch ≠ hash) : C10Prop s req fn suf enc hash cl dec := by
  constructor
  · intro e he
    unfold serve
    rw [if_neg hinm]
    dsimp only
    rw [he]
    dsimp only [onErrorDefault]
    have hetag2 : hGet (if enc ≠ "" then
        hSet (hSet (hSet [] "Content-Type" (ctypeFor fn)) "Etag" hash) "Content-Encoding" enc
        else hSet (hSet [] "Content-Type" (ctypeFor fn)) "Etag" hash) "Etag" = hash := by
      by_cases henc : enc = ""
      · rw [henc, if_neg (by simp), hGet_hSet_self]
      · rw [if_pos henc, hGet_hSet_ne _ (by decide), hGet_hSet_self]
    have hct2 : hGet (if enc ≠ "" then
        hSet (hSet (hSet [] "Content-Type" (ctypeFor fn)) "Etag" hash) "Content-Encoding" enc
        else hSet (hSet [] "Content-Type" (ctypeFor fn)) "Etag" hash) "Content-Type" ≠ "" := by
      by_cases henc : enc = ""
      · rw [henc, if_neg (by simp), hGet_hSet_ne _ (by decide), hGet_hSet_self]
        exact ctypeFor_ne fn
      · rw [if_pos henc, hGet_hSet_ne _ (by decide), hGet_hSet_ne _ (by decide),
          hGet_hSet_self]
        exact ctypeFor_ne fn
    have hce2 : enc ≠ "" → hGet (if enc ≠ "" then
        hSet (hSet (hSet [] "Content-Type" (ctypeFor fn)) "Etag" hash) "Content-Encoding" enc
        else hSet (hSet [] "Content-Type" (ctypeFor fn)) "Etag" hash) "Content-Encoding"
        = enc := by
      intro henc
      rw [if_pos henc, hGet_hSet_self]
    refine ⟨rfl, ⟨_, rfl, hetag2, hct2, hce2⟩, ?_, ?_, ?_⟩
    · rw [hGet_hSet_ne _ (by decide), hGet_hSet_ne _ (by decide)]
      exact hetag2
    · rw [hGet_hSet_ne _ (by decide), hGet_hSet_self]
      decide
    · intro henc
      rw [hGet_hSet_ne _ (by decide), hGet_hSet_ne _ (by decide)]
      exact hce2 henc
  · intro f d e2 hok hmhd hd hderr
    unfold serve
    rw [if_neg hinm]
    dsimp only
    rw [hok]
    dsimp only
    rw [if_neg hmhd, hd]
    dsimp only
    rw [hderr]
    dsimp only [onErrorDefault]
    exact ⟨rfl, _, rfl, hGet_hDel_self _ _⟩

/-- Witness for C10 at a server whose opens fail. -/
theorem c10_open_failure_headers_witness :
    reqOpenErr.ifNoneMatch ≠ "h" ∧
    C10Prop openErrServer reqOpenErr "x" ".gz" "gzip" "h" 5 none :=
  ⟨by decide,
    c10_open_failure_headers openErrServer reqOpenErr "x" ".gz" "gzip" "h" 5 none
      (by decide)⟩

end Statigz
